import Mathlib

/-!
Verification development for the Go_Portfolio repository.

This file gives a shallow embedding of the content storage and placement
engine of the repository (package `files`, `portfolio/upload.go`,
`portfolio/type.go` and the classifier `filetypeFromFile`) and proves or
refutes the frozen specification claims about it.

Modelling conventions:
* Go strings are Lean `String`s; the path helpers from Go's `path` and
  `path/filepath` packages are re-implemented element-wise over `List Char`,
  following the Go standard library sources (`path.Clean`, `path.Base`,
  `path.Ext`, `path.Join`, `filepath.Rel` for the unix separator).
* Byte payloads are `List Nat`.
* The MongoDB collection is a list of BSON documents in natural order;
  `FindOne` returns the first match, `UpdateOne` with upsert updates the
  first match or appends a freshly built document, and `$set` together with
  the struct's `omitempty` bson tags is modelled by `Doc` records with
  optional fields.
* The local filesystem under the `files` root is an association list from
  joined paths to payloads.
-/

namespace Portfolio

abbrev Chars := List Char

/-- Split a character list at every `'/'`, like Go's `strings.Split` on "/". -/
def splitSlash : Chars → List Chars
  | [] => [[]]
  | c :: rest =>
    match splitSlash rest with
    | [] => [[]]
    | g :: gs => if c = '/' then [] :: g :: gs else (c :: g) :: gs

/-- Join path elements with `'/'`. -/
def joinSlash : List Chars → Chars
  | [] => []
  | [g] => g
  | g :: gs => g ++ '/' :: joinSlash gs

/-- The element-processing loop of Go's `path.Clean`: empty and `"."`
elements are dropped, `".."` pops the previous element unless the output is
empty or already ends in `".."`; at the root (rooted paths) `".."` is
dropped. The accumulator holds the output elements in reverse. -/
def cleanElems (rooted : Bool) : List Chars → List Chars → List Chars
  | [], acc => acc.reverse
  | e :: rest, acc =>
    if e = [] ∨ e = ['.'] then cleanElems rooted rest acc
    else if e = ['.', '.'] then
      match acc with
      | [] => if rooted then cleanElems rooted rest [] else cleanElems rooted rest [['.', '.']]
      | a :: as =>
        if a = ['.', '.'] then cleanElems rooted rest (['.', '.'] :: a :: as)
        else cleanElems rooted rest as
    else cleanElems rooted rest (e :: acc)

/-- Go `path.Clean` on character lists. -/
def pathCleanL (cs : Chars) : Chars :=
  let rooted : Bool := match cs with | '/' :: _ => true | _ => false
  let es := cleanElems rooted (splitSlash cs) []
  if rooted then '/' :: joinSlash es
  else if es = [] then ['.'] else joinSlash es

/-- Go `path.Clean`. -/
def pathClean (s : String) : String := ⟨pathCleanL s.data⟩

/-- Scan helper for Go `path.Ext`: walk the reversed character list,
collecting characters until the first `'.'` (returning the extension from
that dot on) and giving up at the first `'/'`. -/
def extFromRev : Chars → Chars → Chars
  | [], _ => []
  | c :: rest, acc =>
    if c = '/' then []
    else if c = '.' then c :: acc
    else extFromRev rest (c :: acc)

/-- Go `path.Ext`: the suffix beginning at the final dot in the final
slash-separated element, `""` if there is no dot. -/
def pathExt (s : String) : String := ⟨extFromRev s.data.reverse []⟩

/-- Go `path.Base`: strip trailing slashes, take the part after the last
slash; `""` maps to `"."`, an all-slash path maps to `"/"`. -/
def pathBase (p : String) : String :=
  if p = "" then "."
  else
    let q := (p.data.reverse.dropWhile (· = '/')).reverse
    let r := (q.reverse.takeWhile (· ≠ '/')).reverse
    if r = [] then "/" else ⟨r⟩

/-- Go `path.Join` of two elements: non-empty elements joined with a slash,
then cleaned; all-empty input gives `""`. -/
def pathJoin (a b : String) : String :=
  if a = "" ∧ b = "" then ""
  else if a = "" then pathClean b
  else if b = "" then pathClean a
  else pathClean (a ++ "/" ++ b)

/-- Strip the longest common element-wise prefix of two element lists
(the first loop of Go's `filepath.Rel`). -/
def stripCommon : List Chars → List Chars → List Chars × List Chars
  | b :: bs, t :: ts => if b = t then stripCommon bs ts else (b :: bs, t :: ts)
  | bs, ts => (bs, ts)

/-- Go `filepath.Rel` for the unix separator (no volume names): clean both
paths, handle the equal and the `"."`-base cases, refuse mixed
rooted/relative inputs, strip the common element prefix, refuse a remaining
`".."` base element, and otherwise prepend one `".."` per remaining base
element to the remaining target elements. -/
def filepathRel (base targ : String) : Except String String :=
  let baseC := pathCleanL base.data
  let targC := pathCleanL targ.data
  if baseC = targC then .ok "."
  else
    let base' := if baseC = ['.'] then [] else baseC
    let baseSlashed : Bool := match base' with | '/' :: _ => true | _ => false
    let targSlashed : Bool := match targC with | '/' :: _ => true | _ => false
    if baseSlashed ≠ targSlashed then .error "Rel: cant make targ relative to base"
    else
      let bs := if base' = [] then [] else splitSlash base'
      let ts := splitSlash targC
      match stripCommon bs ts with
      | (['.', '.'] :: _, _) => .error "Rel: cant make targ relative to base"
      | (brem, trem) =>
        .ok ⟨joinSlash (brem.map (fun _ => ['.', '.']) ++ trem)⟩

/-! ### The type classifier (`filetypeFromFile`) -/

/-- ASCII lower-casing of one character. -/
def charLower (c : Char) : Char :=
  if 'A' ≤ c ∧ c ≤ 'Z' then Char.ofNat (c.toNat + 32) else c

/-- ASCII lower-casing of a string, as Go's `strings.ToLower` behaves on the
ASCII extensions the classifier compares against. -/
def strToLower (s : String) : String := ⟨s.data.map charLower⟩

inductive Filetype
  /-- used for zip files containing other files -/
  | ZIP
  /-- generic files that are stored in the database -/
  | Asset
  /-- markdown files, converted to HTML -/
  | Markdown
  /-- files stored in the static directory -/
  | Static
  /-- files stored in the templates directory -/
  | Templated
deriving Repr, DecidableEq

/-- The classifier `filetypeFromFile` from the source: switch on
`strings.ToLower(path.Ext(f))`. -/
def filetypeFromFile (f : String) : Filetype :=
  let e := strToLower (pathExt f)
  if e = ".zip" then .ZIP
  else if e = ".md" then .Markdown
  else if e = ".html" ∨ e = ".css" ∨ e = ".js" ∨ e = ".ico" ∨ e = ".svg" then .Static
  else if e = ".gohtml" ∨ e = ".tmpl" then .Templated
  else .Asset

/-- The category table exactly as the specification words it, as a function
of an already lower-cased extension. Used to compare the source classifier
against the spec. -/
def specCategoryTable (e : String) : Filetype :=
  if e = ".zip" then .ZIP
  else if e = ".md" then .Markdown
  else if e = ".html" ∨ e = ".css" ∨ e = ".js" ∨ e = ".ico" ∨ e = ".svg" then .Static
  else if e = ".gohtml" ∨ e = ".tmpl" then .Templated
  else .Asset

/-! ### Zip upload path normalization (`handleUploadZipGetUri`) -/

/-- Go `s[:len(s)-len(path.Ext(s))]`: drop the extension from the end. -/
def dropExtSuffix (s : String) : String :=
  ⟨s.data.take (s.data.length - (pathExt s).data.length)⟩

/-- Go `strings.HasPrefix(s, "..")`. -/
def hasDotDot (s : String) : Bool := ['.', '.'].isPrefixOf s.data

/-- `handleUploadZipGetUri` from `portfolio/upload.go`: take the zip file's
base name, strip its extension, make the entry name relative to it, and if
the result still starts with `".."`, re-root it once more relative to
`".."`. -/
def handleUploadZipGetUri (zipName fileName : String) : Except String String :=
  let z2 := dropExtSuffix (pathBase zipName)
  match filepathRel z2 fileName with
  | .error e => .error e
  | .ok fPath =>
    if hasDotDot fPath then filepathRel ".." fPath
    else .ok fPath

/-! ### The files store (`internal/files/mongofile.go`)

The collection is a list of BSON documents in natural order. A document is
modelled with one optional field per bson key occurring in the code: the
struct fields of `MongoFile` (tags `uri`, `size`, `last_mod`, `content`,
`is_md`, `is_local`, `mimetype`) plus the `name` key used by the upsert
filter in `Store`. Payload bytes are `List Nat`, timestamps are `Int`
(`0` is the zero `time.Time`). -/

/-- Bytes of a payload. -/
abbrev Bytes := List Nat

/-- A BSON document as far as this code reads or writes it. -/
structure Doc where
  name : Option String := none
  uri : Option String := none
  size : Option Int := none
  last_mod : Option Int := none
  content : Option Bytes := none
  is_md : Option Bool := none
  is_local : Option Bool := none
  mimetype : Option String := none
deriving Repr, DecidableEq

/-- The in-memory `MongoFile` Go struct. -/
structure MongoFile where
  URI : String := ""
  Filesize : Int := 0
  LastMod : Int := 0
  Content : Bytes := []
  IsMD : Bool := false
  IsLocal : Bool := false
  Mime : String := ""
deriving Repr, DecidableEq

/-- Marshalling a `MongoFile` for `bson.M\x7b"$set": p\x7d`: every field
carries the `omitempty` tag, so zero-valued fields are left out of the
update document (`""`, `0`, the zero time, empty `primitive.Binary` data,
`false`). -/
def bsonOmitempty (p : MongoFile) : Doc where
  name := none
  uri := if p.URI = "" then none else some p.URI
  size := if p.Filesize = 0 then none else some p.Filesize
  last_mod := if p.LastMod = 0 then none else some p.LastMod
  content := if p.Content = [] then none else some p.Content
  is_md := if p.IsMD then some true else none
  is_local := if p.IsLocal then some true else none
  mimetype := if p.Mime = "" then none else some p.Mime

/-- MongoDB `$set`: fields present in the update document replace the
document's fields, absent fields are untouched. -/
def applySet (d s : Doc) : Doc where
  name := match s.name with | some v => some v | none => d.name
  uri := match s.uri with | some v => some v | none => d.uri
  size := match s.size with | some v => some v | none => d.size
  last_mod := match s.last_mod with | some v => some v | none => d.last_mod
  content := match s.content with | some v => some v | none => d.content
  is_md := match s.is_md with | some v => some v | none => d.is_md
  is_local := match s.is_local with | some v => some v | none => d.is_local
  mimetype := match s.mimetype with | some v => some v | none => d.mimetype

/-- Decoding a document into an existing Go struct (`Decode(p)`): fields
present in the (possibly projected) document overwrite the struct's fields,
absent fields keep their current values. -/
def decodeInto (p : MongoFile) (d : Doc) : MongoFile where
  URI := d.uri.getD p.URI
  Filesize := d.size.getD p.Filesize
  LastMod := d.last_mod.getD p.LastMod
  Content := d.content.getD p.Content
  IsMD := d.is_md.getD p.IsMD
  IsLocal := d.is_local.getD p.IsLocal
  Mime := d.mimetype.getD p.Mime

/-- Projection `bson.M\x7b"content": 1\x7d` (inclusion): only the content
field survives. -/
def projContentOnly (d : Doc) : Doc where
  content := d.content

/-- Projection `bson.M\x7b"content": 0\x7d` (exclusion): everything but the
content field survives. -/
def projNoContent (d : Doc) : Doc := { d with content := none }

/-- Projection `bson.M\x7b"is_local": 1, "uri": 1\x7d`. -/
def projLocalUri (d : Doc) : Doc where
  uri := d.uri
  is_local := d.is_local

/-- Filter `bson.M\x7b"uri": u\x7d`. -/
def matchUri (u : String) (d : Doc) : Bool := d.uri = some u

/-- Filter `bson.M\x7b"name": u\x7d` (the filter used by `Store`'s upsert). -/
def matchName (u : String) (d : Doc) : Bool := d.name = some u

/-- `UpdateOne` with `SetUpsert(true)` and filter `\x7bname: u\x7d`: apply
`$set` to the first matching document, or append a new document built from
the filter's equality fields plus the `$set` fields. Also returns whether a
document was matched. -/
def updateOneUpsertByName (u : String) (s : Doc) : List Doc → List Doc × Bool
  | [] => ([applySet { name := some u } s], false)
  | d :: ds =>
    if matchName u d then (applySet d s :: ds, true)
    else
      let r := updateOneUpsertByName u s ds
      (d :: r.1, r.2)

/-- `FindOneAndDelete` with filter `\x7buri: u\x7d`: remove and return the
first matching document. -/
def findOneAndDeleteUri (u : String) : List Doc → Option (Doc × List Doc)
  | [] => none
  | d :: ds =>
    if matchUri u d then some (d, ds)
    else (findOneAndDeleteUri u ds).map (fun r => (r.1, d :: r.2))

/-- The local filesystem under the `files` root: joined path to payload.
`os.Create` truncates an existing file. -/
abbrev Fs := List (String × Bytes)

def fsLookup (k : String) (fs : Fs) : Option Bytes :=
  (fs.find? (fun e => e.1 = k)).map (·.2)

def fsWrite (k : String) (v : Bytes) : Fs → Fs
  | [] => [(k, v)]
  | e :: es => if e.1 = k then (k, v) :: es else e :: fsWrite k v es

def fsErase (k : String) : Fs → Fs
  | [] => []
  | e :: es => if e.1 = k then es else e :: fsErase k es

/-- Combined persistent state: the collection and the local filesystem. -/
structure St where
  db : List Doc
  fs : Fs
deriving Repr, DecidableEq

/-- Error values the modelled code can surface. -/
inductive GoErr
  /-- "file's Filesize, URI or LastMod field is not set" -/
  | invalidInput
  /-- `mongo.ErrNoDocuments` — a lookup found no record -/
  | noDocuments
  /-- `os` error: the path does not exist on the filesystem -/
  | fsNotExist
  /-- an injected `os.Remove` failure -/
  | fsRemoveFail
deriving Repr, DecidableEq

/-- `maxFileSize = 15 << 20`, the inline/external threshold. -/
def maxFileSize : Int := 15 * 1024 * 1024

/-- `URIRoot = "files"`. -/
def URIRoot : String := "files"

/-- `MongoFile.Store`: reject an unset URI or Filesize; payloads larger than
`maxFileSize` go to the filesystem under the `files` root and the struct is
marked local, otherwise the payload is buffered into the struct's `Content`
and the struct is marked not local; finally the document keyed by `name` is
upserted with `$set` of the (omitempty-marshalled) struct. The reader's
full contents are the `reader` argument. -/
def MongoFile.Store (p : MongoFile) (reader : Bytes) (st : St) :
    Except GoErr (MongoFile × St) :=
  if p.URI = "" ∨ p.Filesize = 0 then .error .invalidInput
  else
    let big := maxFileSize < p.Filesize
    let p' := if big then { p with IsLocal := true }
              else { p with Content := reader, IsLocal := false }
    let fs' := if big then fsWrite (pathJoin URIRoot p.URI) reader st.fs else st.fs
    .ok (p', { db := (updateOneUpsertByName p'.URI (bsonOmitempty p') st.db).1, fs := fs' })

/-- `MongoFile.Open`: a local file is read from the filesystem, otherwise
the record is fetched by `uri` with a content-only projection and decoded
into the struct, and the stored bytes are returned. -/
def MongoFile.Open (p : MongoFile) (st : St) : Except GoErr (Bytes × MongoFile) :=
  if p.IsLocal then
    match fsLookup (pathJoin URIRoot p.URI) st.fs with
    | some c => .ok (c, p)
    | none => .error .fsNotExist
  else
    match st.db.find? (matchUri p.URI) with
    | none => .error .noDocuments
    | some d =>
      let p' := decodeInto p (projContentOnly d)
      .ok (p'.Content, p')

/-- `MongoFile.Delete`: `FindOneAndDelete` by `uri` (absorbing
`ErrNoDocuments` into success), then, only if the decoded record is local,
remove the backing file. `removeOk` injects the success or failure of
`os.Remove`; removing a missing file also fails. The state reflects all
mutations performed before a failure. -/
def MongoFile.Delete (p : MongoFile) (removeOk : Bool) (st : St) :
    Option GoErr × St :=
  match findOneAndDeleteUri p.URI st.db with
  | none => (none, st)
  | some (d, db') =>
    let p' := decodeInto p (projLocalUri d)
    if p'.IsLocal then
      let key := pathJoin URIRoot p'.URI
      match fsLookup key st.fs with
      | some _ =>
        if removeOk then (none, { db := db', fs := fsErase key st.fs })
        else (some .fsRemoveFail, { db := db', fs := st.fs })
      | none => (some .fsNotExist, { db := db', fs := st.fs })
    else (none, { db := db', fs := st.fs })

/-- `GetFromDB`: fetch the record by `uri` with a no-content projection into
a zero struct; on an `ErrNoDocuments` miss for a `".html"` path, retry once
with the extension replaced by `".md"` and flag the result as markdown. -/
def GetFromDB (uri : String) (db : List Doc) : Except GoErr MongoFile :=
  match db.find? (matchUri uri) with
  | some d => .ok (decodeInto {} (projNoContent d))
  | none =>
    if pathExt uri = ".html" then
      let uri2 := dropExtSuffix uri ++ ".md"
      match db.find? (matchUri uri2) with
      | some d => .ok { decodeInto {} (projNoContent d) with URI := uri2, IsMD := true }
      | none => .error .noDocuments
    else .error .noDocuments

/-- The serving composition used by `handleFile` for non-markdown content:
`GetFromDB` followed by `MongoFile.Open`, returning the payload. -/
def pathOpen (uri : String) (st : St) : Except GoErr Bytes :=
  match GetFromDB uri st.db with
  | .error e => .error e
  | .ok f =>
    match f.Open st with
    | .error e => .error e
    | .ok r => .ok r.1

/-- Well-formedness of a collection, maintained by all reachable states:
every document was written through `Store`'s upsert, so it carries a `name`
key equal to its `uri` key, and no two documents share a `name`. -/
def WFdb (db : List Doc) : Prop :=
  (∀ d ∈ db, d.name.isSome ∧ d.name = d.uri) ∧
    (db.map (fun d => d.name)).Nodup

instance (db : List Doc) : Decidable (WFdb db) := by
  unfold WFdb; infer_instance

/-- Key-uniqueness of the modelled filesystem (maintained by `fsWrite`). -/
def WFfs (fs : Fs) : Prop := (fs.map (fun e => e.1)).Nodup

instance (fs : Fs) : Decidable (WFfs fs) := by
  unfold WFfs; infer_instance

/-- Storing then reading the same struct: the composition `Store` then
`Open` used by the round-trip law. -/
def storeThenOpen (p : MongoFile) (reader : Bytes) (st : St) : Except GoErr Bytes :=
  match p.Store reader st with
  | .error e => .error e
  | .ok r =>
    match r.1.Open r.2 with
    | .error e => .error e
    | .ok q => .ok q.1

/-! ### Supporting lemmas -/

theorem fsLookup_fsWrite_self (k : String) (v : Bytes) (fs : Fs) :
    fsLookup k (fsWrite k v fs) = some v := by
  induction fs with
  | nil => simp [fsWrite, fsLookup]
  | cons e es ih =>
    by_cases h : e.1 = k
    · simp [fsWrite, fsLookup, h]
    · simpa [fsWrite, fsLookup, h] using ih

theorem fsLookup_fsErase_self (k : String) (fs : Fs) (hWF : WFfs fs) :
    fsLookup k (fsErase k fs) = none := by
  induction fs with
  | nil => simp [fsErase, fsLookup]
  | cons e es ih =>
    rcases List.nodup_cons.mp hWF with ⟨hni, hnd⟩
    by_cases h : e.1 = k
    · subst h
      simp only [fsErase, if_pos rfl, fsLookup]
      rw [List.find?_eq_none.mpr]
      · rfl
      · intro x hx hpx
        simp only [decide_eq_true_eq] at hpx
        refine hni ?_
        rw [List.mem_map]
        exact ⟨x, by simpa using hx, hpx⟩
    · simpa [fsErase, fsLookup, h] using ih hnd

theorem findOneAndDeleteUri_of_none (u : String) (db : List Doc)
    (h : db.find? (matchUri u) = none) : findOneAndDeleteUri u db = none := by
  induction db with
  | nil => rfl
  | cons d ds ih =>
    by_cases hd : matchUri u d
    · rw [List.find?_cons_of_pos _ hd] at h
      cases h
    · rw [List.find?_cons_of_neg _ hd] at h
      simp only [findOneAndDeleteUri]
      rw [if_neg hd, ih h]
      rfl

theorem findOneAndDeleteUri_uri (u : String) (db db' : List Doc) (d : Doc)
    (h : findOneAndDeleteUri u db = some (d, db')) : d.uri = some u := by
  induction db generalizing db' with
  | nil => exact absurd h (by simp [findOneAndDeleteUri])
  | cons e es ih =>
    simp only [findOneAndDeleteUri] at h
    by_cases he : matchUri u e
    · rw [if_pos he] at h
      cases h
      simpa [matchUri] using he
    · rw [if_neg he] at h
      match hrec : findOneAndDeleteUri u es with
      | none => rw [hrec] at h; cases h
      | some r =>
        rw [hrec] at h
        cases h
        exact ih r.2 hrec

theorem findOneAndDeleteUri_rest_none (u : String) (db db' : List Doc) (d : Doc)
    (hWF : WFdb db) (h : findOneAndDeleteUri u db = some (d, db')) :
    db'.find? (matchUri u) = none := by
  induction db generalizing db' with
  | nil => exact absurd h (by simp [findOneAndDeleteUri])
  | cons e es ih =>
    obtain ⟨hmem, hnd⟩ := hWF
    rw [List.map_cons, List.nodup_cons] at hnd
    simp only [findOneAndDeleteUri] at h
    by_cases he : matchUri u e
    · rw [if_pos he] at h
      cases h
      rw [List.find?_eq_none]
      intro x hx hpx
      have hxn : x.name = x.uri := (hmem x (List.mem_cons_of_mem _ hx)).2
      have hdn : d.name = d.uri := (hmem d (List.mem_cons_self _ _)).2
      apply hnd.1
      rw [List.mem_map]
      refine ⟨x, hx, ?_⟩
      show x.name = d.name
      simp only [matchUri, decide_eq_true_eq] at he hpx
      rw [hxn, hdn, he, hpx]
    · rw [if_neg he] at h
      match hrec : findOneAndDeleteUri u es with
      | none => rw [hrec] at h; cases h
      | some r =>
        rw [hrec] at h
        cases h
        rw [List.find?_cons_of_neg _ he]
        exact ih r.2 ⟨fun x hx => hmem x (List.mem_cons_of_mem _ hx), hnd.2⟩ hrec

theorem upsert_find? (u : String) (s : Doc) (db : List Doc)
    (hWF : WFdb db) (hs : s.uri = some u) :
    ∃ d₀, (updateOneUpsertByName u s db).1.find? (matchUri u) = some (applySet d₀ s) := by
  have happ : ∀ d₀ : Doc, (applySet d₀ s).uri = some u := by
    intro d₀; simp [applySet, hs]
  have hmatch : ∀ d₀ : Doc, matchUri u (applySet d₀ s) = true := by
    intro d₀; simp [matchUri, happ]
  induction db with
  | nil =>
    refine ⟨{ name := some u }, ?_⟩
    simp only [updateOneUpsertByName]
    rw [List.find?_cons_of_pos _ (hmatch _)]
  | cons d ds ih =>
    obtain ⟨hmem, hnd⟩ := hWF
    rw [List.map_cons, List.nodup_cons] at hnd
    by_cases hd : matchName u d
    · refine ⟨d, ?_⟩
      simp only [updateOneUpsertByName, if_pos hd]
      rw [List.find?_cons_of_pos _ (hmatch _)]
    · obtain ⟨d₀, hfind⟩ := ih ⟨fun x hx => hmem x (List.mem_cons_of_mem _ hx), hnd.2⟩
      refine ⟨d₀, ?_⟩
      simp only [updateOneUpsertByName, if_neg hd]
      rw [List.find?_cons_of_neg _ ?_, hfind]
      have hdn : d.name = d.uri := (hmem d (List.mem_cons_self _ _)).2
      simp only [matchName, decide_eq_true_eq] at hd
      simp [matchUri, ← hdn, hd]

/-! ### Claims -/

/-- C1: the spec claims a zip entry's path is re-rooted "until it no longer
begins with `..`" and that `../../etc/passwd` inside `evil.zip` never
escapes the virtual root. The code re-roots exactly once, so this entry
normalizes to `../../etc/passwd`, which still begins with `..` and escapes
the logical namespace. -/
theorem zip_entry_traversal_still_escapes :
    handleUploadZipGetUri "evil.zip" "../../etc/passwd" = .ok "../../etc/passwd" ∧
    hasDotDot "../../etc/passwd" = true :=
  ⟨rfl, rfl⟩

/-- C9: the classifier is a total function of the file name that matches the
spec's category table applied to the lower-cased extension, and names whose
lower-cased extensions agree are classified identically (case-insensitivity). -/
theorem filetypeFromFile_matches_spec_table (f g : String)
    (h : strToLower (pathExt f) = strToLower (pathExt g)) :
    filetypeFromFile f = specCategoryTable (strToLower (pathExt f)) ∧
    filetypeFromFile f = filetypeFromFile g := by
  refine ⟨rfl, ?_⟩
  show specCategoryTable (strToLower (pathExt f)) = specCategoryTable (strToLower (pathExt g))
  rw [h]

theorem filetypeFromFile_matches_spec_table_witness :
    strToLower (pathExt "A.MD") = strToLower (pathExt "b.md") ∧
    filetypeFromFile "A.MD" = specCategoryTable (strToLower (pathExt "A.MD")) ∧
    filetypeFromFile "A.MD" = filetypeFromFile "b.md" :=
  ⟨rfl, filetypeFromFile_matches_spec_table "A.MD" "b.md" rfl⟩

/-- C6 counterexample: a `Store` with a strictly negative declared size is
not rejected — the guard only tests `Filesize == 0` — and the payload is
stored inline, contradicting the claim that every non-positive size fails
with `InvalidInput`. -/
theorem store_negative_size_not_rejected :
    MongoFile.Store { URI := "/a", Filesize := -1, LastMod := 1, Mime := "m" } [7] ⟨[], []⟩ =
      .ok ({ URI := "/a", Filesize := -1, LastMod := 1, Content := [7], Mime := "m" },
        { db := [{ name := some "/a", uri := some "/a", size := some (-1), last_mod := some 1,
                   content := some [7], mimetype := some "m" }],
          fs := [] }) :=
  rfl

/-- C6 (amended): `Store` fails with the invalid-input error exactly when
the path is empty or the declared size is exactly zero; in that case nothing
is written. Strictly negative sizes are not rejected. -/
theorem store_invalid_input_iff (p : MongoFile) (reader : Bytes) (st : St) :
    MongoFile.Store p reader st = .error .invalidInput ↔ (p.URI = "" ∨ p.Filesize = 0) := by
  unfold MongoFile.Store
  split <;> simp_all

/-- C7: deleting a path with no record is an idempotent no-op — the
`ErrNoDocuments` outcome of `FindOneAndDelete` is absorbed and `Delete`
returns success with the state unchanged. -/
theorem delete_missing_is_noop (p : MongoFile) (removeOk : Bool) (st : St)
    (h : st.db.find? (matchUri p.URI) = none) :
    p.Delete removeOk st = (none, st) := by
  unfold MongoFile.Delete
  rw [findOneAndDeleteUri_of_none _ _ h]

theorem delete_missing_is_noop_witness :
    (([] : List Doc).find? (matchUri "/no") = none) ∧
    MongoFile.Delete { URI := "/no" } true ⟨[], []⟩ = (none, ⟨[], []⟩) :=
  ⟨rfl, delete_missing_is_noop { URI := "/no" } true ⟨[], []⟩ rfl⟩

/-- C2: for an accepted `Store`, placement is decided purely by comparing
the declared size against the fixed threshold `maxFileSize = 15 MiB`:
strictly larger payloads go to the filesystem under the `files` root with
the struct marked local, all others — the threshold size included — are
buffered into the struct's `Content` and leave the filesystem untouched,
with the struct marked not local. -/
theorem store_placement_by_size (p : MongoFile) (reader : Bytes) (st : St)
    (hURI : p.URI ≠ "") (hSize : p.Filesize ≠ 0) :
    maxFileSize = 15 * 1024 * 1024 ∧
    (maxFileSize < p.Filesize →
      (p.Store reader st).map (fun r => r.1.IsLocal) = .ok true ∧
      (p.Store reader st).map (fun r => fsLookup (pathJoin URIRoot p.URI) r.2.fs) =
        .ok (some reader)) ∧
    (¬ maxFileSize < p.Filesize →
      (p.Store reader st).map (fun r => r.1.IsLocal) = .ok false ∧
      (p.Store reader st).map (fun r => r.1.Content) = .ok reader ∧
      (p.Store reader st).map (fun r => r.2.fs) = .ok st.fs) := by
  refine ⟨rfl, ?_, ?_⟩ <;> intro hbig <;> unfold MongoFile.Store <;>
    rw [if_neg (by tauto)] <;> simp [hbig, fsLookup_fsWrite_self, Except.map]

theorem store_placement_by_size_witness :
    ("/b" : String) ≠ "" ∧ ((15728641 : Int) ≠ 0) ∧ maxFileSize < 15728641 ∧
    (MongoFile.Store { URI := "/b", Filesize := 15728641, LastMod := 5, Mime := "m" }
        [1, 2] ⟨[], []⟩).map (fun r => r.1.IsLocal) = .ok true ∧
    (MongoFile.Store { URI := "/b", Filesize := 15728641, LastMod := 5, Mime := "m" }
        [1, 2] ⟨[], []⟩).map (fun r => fsLookup (pathJoin URIRoot "/b") r.2.fs) =
      .ok (some [1, 2]) :=
  ⟨by decide, by decide, by decide,
    ((store_placement_by_size { URI := "/b", Filesize := 15728641, LastMod := 5, Mime := "m" }
        [1, 2] ⟨[], []⟩ (by decide) (by decide)).2.1 (by decide)).1,
    ((store_placement_by_size { URI := "/b", Filesize := 15728641, LastMod := 5, Mime := "m" }
        [1, 2] ⟨[], []⟩ (by decide) (by decide)).2.1 (by decide)).2⟩

/-- C3: the round-trip law. Storing a non-empty payload at a non-empty path
into a well-formed state and opening the resulting file returns the stored
bytes unchanged, on both sides of the inline/external threshold. -/
theorem store_open_roundtrip (p : MongoFile) (reader : Bytes) (st : St)
    (hWF : WFdb st.db) (hURI : p.URI ≠ "") (hSize : p.Filesize ≠ 0)
    (hr : reader ≠ []) :
    storeThenOpen p reader st = .ok reader := by
  unfold storeThenOpen MongoFile.Store
  rw [if_neg (by tauto)]
  by_cases hbig : maxFileSize < p.Filesize
  · simp only [if_pos hbig]
    unfold MongoFile.Open
    simp [fsLookup_fsWrite_self]
  · simp only [if_neg hbig]
    have hs : (bsonOmitempty { p with Content := reader, IsLocal := false }).uri =
        some p.URI := by
      simp [bsonOmitempty, hURI]
    obtain ⟨d₀, hfind⟩ :=
      upsert_find? p.URI (bsonOmitempty { p with Content := reader, IsLocal := false })
        st.db hWF hs
    unfold MongoFile.Open
    rw [if_neg (by simp)]
    rw [hfind]
    simp [decodeInto, projContentOnly, applySet, bsonOmitempty, hr]

theorem store_open_roundtrip_witness :
    WFdb [] ∧ ("/x.bin" : String) ≠ "" ∧ ((2 : Int) ≠ 0) ∧ ([4, 5] : Bytes) ≠ [] ∧
    storeThenOpen { URI := "/x.bin", Filesize := 2, LastMod := 2, Mime := "m" }
      [4, 5] ⟨[], []⟩ = .ok [4, 5] :=
  ⟨by decide, by decide, by decide, by decide,
    store_open_roundtrip { URI := "/x.bin", Filesize := 2, LastMod := 2, Mime := "m" }
      [4, 5] ⟨[], []⟩ (by decide) (by decide) (by decide) (by decide)⟩

/-- C5: a lookup miss falls back exactly once, and only for `".html"`
paths: a miss on a non-`.html` path fails with the no-documents error; a
miss on a `.html` path retries the same lookup with the extension replaced
by `.md`, returning that record flagged as markdown when it exists and the
no-documents error when it does not. -/
theorem getFromDB_html_fallback (uri : String) (db : List Doc)
    (hmiss : db.find? (matchUri uri) = none) :
    (pathExt uri ≠ ".html" → GetFromDB uri db = .error .noDocuments) ∧
    (pathExt uri = ".html" →
      (db.find? (matchUri (dropExtSuffix uri ++ ".md")) = none →
        GetFromDB uri db = .error .noDocuments) ∧
      ∀ d, db.find? (matchUri (dropExtSuffix uri ++ ".md")) = some d →
        GetFromDB uri db =
          .ok { decodeInto {} (projNoContent d) with
                  URI := dropExtSuffix uri ++ ".md", IsMD := true }) := by
  unfold GetFromDB
  simp only [hmiss]
  constructor
  · intro h
    rw [if_neg h]
  · intro h
    rw [if_pos h]
    constructor
    · intro h2
      simp only [h2]
    · intro d h2
      simp only [h2]

/-- A sample stored markdown record used to exercise the `.html` → `.md`
fallback. -/
def exampleMdDoc : Doc :=
  { name := some "/p.md", uri := some "/p.md", size := some 3, content := some [1, 2],
    is_md := some true, mimetype := some "text/markdown; charset=utf-8" }

theorem getFromDB_html_fallback_witness :
    ([exampleMdDoc].find? (matchUri "/p.html") = none) ∧
    pathExt "/p.html" = ".html" ∧
    GetFromDB "/p.html" [exampleMdDoc] =
      .ok { URI := "/p.md", Filesize := 3, IsMD := true,
            Mime := "text/markdown; charset=utf-8" } :=
  ⟨rfl, rfl,
    ((getFromDB_html_fallback "/p.html" [exampleMdDoc] rfl).2 rfl).2 exampleMdDoc rfl⟩

/-- C8: deleting a stored item removes its metadata record; only an
external (local) item also has its backing file removed. After a successful
delete of an external item no record for the path remains, its backing file
is gone, and serving the path (for a non-`.html` path, where no markdown
fallback can fire) fails with the no-documents error. For a record without
the local marker the filesystem is left untouched. -/
theorem delete_external_removes_backing (u : String) (st : St) (d : Doc) (db' : List Doc)
    (hWF : WFdb st.db) (hWFfs : WFfs st.fs)
    (hfd : findOneAndDeleteUri u st.db = some (d, db')) :
    (d.is_local = some true →
      ∀ c, fsLookup (pathJoin URIRoot u) st.fs = some c →
        MongoFile.Delete (decodeInto {} (projNoContent d)) true st =
            (none, ⟨db', fsErase (pathJoin URIRoot u) st.fs⟩) ∧
          db'.find? (matchUri u) = none ∧
          fsLookup (pathJoin URIRoot u) (fsErase (pathJoin URIRoot u) st.fs) = none ∧
          (pathExt u ≠ ".html" →
            pathOpen u ⟨db', fsErase (pathJoin URIRoot u) st.fs⟩ = .error .noDocuments)) ∧
    (d.is_local = none →
      MongoFile.Delete (decodeInto {} (projNoContent d)) true st = (none, ⟨db', st.fs⟩)) := by
  have huri : d.uri = some u := findOneAndDeleteUri_uri u st.db db' d hfd
  have hU : (decodeInto {} (projNoContent d)).URI = u := by
    simp [decodeInto, projNoContent, huri]
  have hrest : db'.find? (matchUri u) = none :=
    findOneAndDeleteUri_rest_none u st.db db' d hWF hfd
  constructor
  · intro hloc c hc
    refine ⟨?_, hrest, fsLookup_fsErase_self _ _ hWFfs, ?_⟩
    · unfold MongoFile.Delete
      rw [hU, hfd]
      simp only [decodeInto, projLocalUri, hloc, huri, Option.getD_some]
      simp [hc]
    · intro hext
      unfold pathOpen GetFromDB
      simp only [hrest]
      rw [if_neg hext]
  · intro hloc
    unfold MongoFile.Delete
    rw [hU, hfd]
    simp only [decodeInto, projLocalUri, projNoContent, hloc, huri, Option.getD_some,
      Option.getD_none]
    rw [if_neg (by simp)]

theorem delete_external_removes_backing_witness :
    WFdb [{ name := some "/big.bin", uri := some "/big.bin", size := some 15728641,
            last_mod := some 5, is_local := some true, mimetype := some "app" }] ∧
    WFfs [("files/big.bin", [1, 2, 3])] ∧
    MongoFile.Delete
        (decodeInto {}
          (projNoContent
            { name := some "/big.bin", uri := some "/big.bin", size := some 15728641,
              last_mod := some 5, is_local := some true, mimetype := some "app" }))
        true
        ⟨[{ name := some "/big.bin", uri := some "/big.bin", size := some 15728641,
            last_mod := some 5, is_local := some true, mimetype := some "app" }],
          [("files/big.bin", [1, 2, 3])]⟩ = (none, ⟨[], []⟩) ∧
    pathOpen "/big.bin" ⟨[], []⟩ = .error .noDocuments := by
  have h := delete_external_removes_backing "/big.bin"
    ⟨[{ name := some "/big.bin", uri := some "/big.bin", size := some 15728641,
        last_mod := some 5, is_local := some true, mimetype := some "app" }],
      [("files/big.bin", [1, 2, 3])]⟩
    { name := some "/big.bin", uri := some "/big.bin", size := some 15728641,
      last_mod := some 5, is_local := some true, mimetype := some "app" }
    [] (by decide) (by decide) rfl
  obtain ⟨h1, h2, h3, h4⟩ := h.1 rfl [1, 2, 3] rfl
  exact ⟨by decide, by decide, h1, h4 (by decide)⟩

/-- C10: `Delete` removes the metadata record before touching the backing
file, so when the filesystem removal of an external item fails, the call
returns an error while the record is already gone and the filesystem is
unchanged — a subsequent lookup of the path reports the no-documents error
even though the backing file may still be on disk. -/
theorem delete_record_gone_on_remove_failure (u : String) (st : St) (d : Doc)
    (db' : List Doc) (hWF : WFdb st.db)
    (hfd : findOneAndDeleteUri u st.db = some (d, db'))
    (hloc : d.is_local = some true) :
    (MongoFile.Delete (decodeInto {} (projNoContent d)) false st).1.isSome = true ∧
    (MongoFile.Delete (decodeInto {} (projNoContent d)) false st).2 = ⟨db', st.fs⟩ ∧
    db'.find? (matchUri u) = none ∧
    (pathExt u ≠ ".html" → GetFromDB u db' = .error .noDocuments) := by
  have huri : d.uri = some u := findOneAndDeleteUri_uri u st.db db' d hfd
  have hU : (decodeInto {} (projNoContent d)).URI = u := by
    simp [decodeInto, projNoContent, huri]
  have hrest : db'.find? (matchUri u) = none :=
    findOneAndDeleteUri_rest_none u st.db db' d hWF hfd
  have hdel : MongoFile.Delete (decodeInto {} (projNoContent d)) false st =
      ((MongoFile.Delete (decodeInto {} (projNoContent d)) false st).1, ⟨db', st.fs⟩) ∧
      (MongoFile.Delete (decodeInto {} (projNoContent d)) false st).1.isSome = true := by
    unfold MongoFile.Delete
    rw [hU, hfd]
    simp only [decodeInto, projLocalUri, hloc, huri, Option.getD_some]
    cases fsLookup (pathJoin URIRoot u) st.fs <;> simp
  refine ⟨hdel.2, ?_, hrest, ?_⟩
  · rw [hdel.1]
  · intro hext
    unfold GetFromDB
    simp only [hrest]
    rw [if_neg hext]

theorem delete_record_gone_on_remove_failure_witness :
    WFdb [{ name := some "/big.bin", uri := some "/big.bin", size := some 15728641,
            last_mod := some 5, is_local := some true, mimetype := some "app" }] ∧
    (MongoFile.Delete
        (decodeInto {}
          (projNoContent
            { name := some "/big.bin", uri := some "/big.bin", size := some 15728641,
              last_mod := some 5, is_local := some true, mimetype := some "app" }))
        false
        ⟨[{ name := some "/big.bin", uri := some "/big.bin", size := some 15728641,
            last_mod := some 5, is_local := some true, mimetype := some "app" }],
          [("files/big.bin", [1, 2, 3])]⟩).1.isSome = true ∧
    (MongoFile.Delete
        (decodeInto {}
          (projNoContent
            { name := some "/big.bin", uri := some "/big.bin", size := some 15728641,
              last_mod := some 5, is_local := some true, mimetype := some "app" }))
        false
        ⟨[{ name := some "/big.bin", uri := some "/big.bin", size := some 15728641,
            last_mod := some 5, is_local := some true, mimetype := some "app" }],
          [("files/big.bin", [1, 2, 3])]⟩).2 =
      ⟨[], [("files/big.bin", [1, 2, 3])]⟩ ∧
    GetFromDB "/big.bin" [] = .error .noDocuments := by
  have h := delete_record_gone_on_remove_failure "/big.bin"
    ⟨[{ name := some "/big.bin", uri := some "/big.bin", size := some 15728641,
        last_mod := some 5, is_local := some true, mimetype := some "app" }],
      [("files/big.bin", [1, 2, 3])]⟩
    { name := some "/big.bin", uri := some "/big.bin", size := some 15728641,
      last_mod := some 5, is_local := some true, mimetype := some "app" }
    [] (by decide) rfl rfl
  exact ⟨by decide, h.1, h.2.1, h.2.2.2 (by decide)⟩

/-- The state after storing a payload declared one byte above the threshold
at `/big.bin` and then re-storing one byte of different content at the same
path, starting from the empty state. -/
def restoreDemoSt : St :=
  match MongoFile.Store
      { URI := "/big.bin", Filesize := maxFileSize + 1, LastMod := 5, Mime := "app" }
      [1, 2, 3] ⟨[], []⟩ with
  | .error _ => ⟨[], []⟩
  | .ok r =>
    match MongoFile.Store { URI := "/big.bin", Filesize := 1, LastMod := 6, Mime := "app" }
        [9] r.2 with
    | .error _ => ⟨[], []⟩
    | .ok r2 => r2.2

/-- C4: after an external store followed by an inline store at the same
path, exactly one record exists (upsert does not duplicate) and the new
content was written into the record — but because `$set` marshals the
struct with `omitempty`, the cleared `IsLocal=false` never reaches the
record: it stays marked external, and serving the path reads the stale
backing file, returning the first payload instead of the second. -/
theorem restore_keeps_stale_placement :
    (restoreDemoSt.db.filter (matchUri "/big.bin")).length = 1 ∧
    (restoreDemoSt.db.find? (matchUri "/big.bin")).map (fun d => d.content) =
      some (some [9]) ∧
    (restoreDemoSt.db.find? (matchUri "/big.bin")).map (fun d => d.is_local) =
      some (some true) ∧
    pathOpen "/big.bin" restoreDemoSt = .ok [1, 2, 3] :=
  ⟨rfl, rfl, rfl, rfl⟩

end Portfolio
